import Mathlib

/-!
Verification of the layout and geometry-synthesis engine of the
`perigramata` tower-drawing program (`src/main.py`).

The Python source is shallowly embedded: strings are handled as `List Char`,
Python floats are modelled as exact rationals (the spec declares all
quantities to be plain real numbers in abstract drawing units), fallible
computations return `Option`/`Except`, and the geometry produced by
`draw_tower` is a list of tagged line segments.  Text entities (labels and
the title) carry no geometry and are not part of the model.  An uncaught Python exception inside `draw_tower` is modelled as an
`Except.error`: the partially emitted geometry of an erroring tower is
discarded, exactly as the DXF document of such a tower is never saved.
-/

namespace Perigramata

/-- The whitespace set of Python `str.strip` / `str.isspace`: the ASCII
control whitespace U+0009..U+000D, the separators U+001C..U+001F, space,
NEL (U+0085), NBSP (U+00A0), Ogham space mark (U+1680), the Zs spaces
U+2000..U+200A, the line and paragraph separators U+2028/U+2029, the
narrow no-break space (U+202F), the medium mathematical space (U+205F)
and the ideographic space (U+3000). -/
def isPyWs (c : Char) : Bool :=
  c = ' ' || c = '\t' || c = '\n' || c = '\r' || c = '\x0b' || c = '\x0c' ||
  c = '\x1c' || c = '\x1d' || c = '\x1e' || c = '\x1f' ||
  c = '\x85' || c = '\xa0' || c = '\u1680' ||
  c = '\u2000' || c = '\u2001' || c = '\u2002' || c = '\u2003' || c = '\u2004' ||
  c = '\u2005' || c = '\u2006' || c = '\u2007' || c = '\u2008' || c = '\u2009' ||
  c = '\u200a' || c = '\u2028' || c = '\u2029' || c = '\u202f' || c = '\u205f' ||
  c = '\u3000'

/-- Python `str.strip()`: remove leading and trailing whitespace. -/
def pyStripL (l : List Char) : List Char :=
  ((l.dropWhile isPyWs).reverse.dropWhile isPyWs).reverse

/-- Python `c in s` membership test for a single character. -/
def hasChar (c : Char) : List Char → Bool
  | [] => false
  | x :: t => x = c || hasChar c t

/-- Python `s.split(sep, 1)[0]`: everything before the first occurrence of
`sep` (the whole string when `sep` is absent). -/
def takeBefore (sep : Char) (l : List Char) : List Char :=
  l.takeWhile (fun c => c != sep)

/-- Python `s.replace(" ", "")`: delete every space character. -/
def removeSpaces (l : List Char) : List Char :=
  l.filter (fun c => c != ' ')

/-- Python `if s.startswith("+"): s = s[1:]`. -/
def dropLeadPlus (l : List Char) : List Char :=
  if l.head? = some '+' then l.tail else l

/-- `normalize_base`, step 2: truncate at the first `/` (and re-strip) when a
`/` is present. -/
def nbStep2 (s : List Char) : List Char :=
  if hasChar '/' s then pyStripL (takeBefore '/' s) else s

/-- `normalize_base`, step 3: truncate at the first `(` (and re-strip) when a
`(` is present. -/
def nbStep3 (s : List Char) : List Char :=
  if hasChar '(' s then pyStripL (takeBefore '(' s) else s

/-- Character-list body of `normalize_base` (main.py lines 26-43): strip,
truncate at `/` then at `(`, remove spaces, drop one leading `+`. -/
def nbL (l : List Char) : List Char :=
  dropLeadPlus (removeSpaces (nbStep3 (nbStep2 (pyStripL l))))

/-- `normalize_base` (main.py lines 26-43). -/
def normalize_base (s : String) : String :=
  ⟨nbL s.data⟩

/-- Python `s.replace(",", ".")`. -/
def commaToDot (l : List Char) : List Char :=
  l.map (fun c => if c = ',' then '.' else c)

/-- Value of a digit string (most significant first) as a rational. -/
def digitsVal (l : List Char) : ℚ :=
  l.foldl (fun acc c => acc * 10 + ((c.toNat - 48 : ℕ) : ℚ)) 0

/-- Value of a fractional digit string: `digits / 10 ^ length`. -/
def fracVal (l : List Char) : ℚ :=
  digitsVal l / (10 : ℚ) ^ l.length

/-- Exponent suffix of a Python float literal: optional sign, then one or
more digits, then end of string. -/
def pyExp (m : ℚ) (l : List Char) : Option ℚ :=
  let (pos, l1) :=
    match l with
    | '+' :: t => (true, t)
    | '-' :: t => (false, t)
    | _ => (true, l)
  let ds := l1.takeWhile Char.isDigit
  let r := l1.dropWhile Char.isDigit
  if ds.isEmpty || !r.isEmpty then none
  else
    let e := ds.foldl (fun acc c => acc * 10 + (c.toNat - 48)) 0
    some (if pos then m * (10 : ℚ) ^ e else m / (10 : ℚ) ^ e)

/-- Python `float()` on a finite decimal literal: optional sign, a mantissa
`digits`, `digits.digits`, `digits.` or `.digits`, and an optional
`e`/`E` exponent.  `inf`/`nan` spellings and digit-group underscores are not
modelled (they never denote rationals / never occur in this data). -/
def pyFloatQ (l : List Char) : Option ℚ :=
  let (sgn, l1) :=
    match l with
    | '+' :: t => ((1 : ℚ), t)
    | '-' :: t => ((-1 : ℚ), t)
    | _ => ((1 : ℚ), l)
  let ip := l1.takeWhile Char.isDigit
  let r1 := l1.dropWhile Char.isDigit
  let (mant, r2) :=
    match r1 with
    | '.' :: t =>
      let fp := t.takeWhile Char.isDigit
      let r := t.dropWhile Char.isDigit
      if ip.isEmpty && fp.isEmpty then ((none : Option ℚ), r)
      else (some (digitsVal ip + fracVal fp), r)
    | _ => if ip.isEmpty then ((none : Option ℚ), r1) else (some (digitsVal ip), r1)
  match mant with
  | none => none
  | some m =>
    match r2 with
    | [] => some (sgn * m)
    | 'e' :: t => pyExp (sgn * m) t
    | 'E' :: t => pyExp (sgn * m) t
    | _ => none

/-- Match of the regex `[+-]?\d+(?:[.,]\d+)?` anchored at the head of `l`
(with Python backtracking: a sign not followed by a digit fails). -/
def matchNumAt (l : List Char) : Option (List Char) :=
  let (sgnPart, rest) :=
    match l with
    | c :: t => if c = '+' || c = '-' then ([c], t) else (([] : List Char), l)
    | [] => (([] : List Char), ([] : List Char))
  let ds := rest.takeWhile Char.isDigit
  if ds.isEmpty then none
  else
    match rest.dropWhile Char.isDigit with
    | c :: t =>
      if c = '.' || c = ',' then
        let fs := t.takeWhile Char.isDigit
        if fs.isEmpty then some (sgnPart ++ ds) else some (sgnPart ++ ds ++ c :: fs)
      else some (sgnPart ++ ds)
    | [] => some (sgnPart ++ ds)

/-- `re.search` for `[+-]?\d+(?:[.,]\d+)?`: leftmost match. -/
def regexSearchNum : List Char → Option (List Char)
  | [] => none
  | c :: t =>
    match matchNumAt (c :: t) with
    | some m => some m
    | none => regexSearchNum t

/-- `parse_offset_value` (main.py lines 46-73): `None` without a `/`,
otherwise the first signed decimal number after the first `/` (with any
parenthesised suffix discarded), comma normalised to dot.  The
`try/except ValueError` around `float` maps a failed conversion to `None`. -/
def parse_offset_value (s : String) : Option ℚ :=
  let l := s.data
  if hasChar '/' l then
    let part := (l.dropWhile (fun c => c != '/')).tail
    let part2 := takeBefore '(' part
    match regexSearchNum part2 with
    | none => none
    | some tok => pyFloatQ (commaToDot tok)
  else none

/-- `parse_distance` (main.py lines 76-87): a missing cell (`pd.isna`) is
`None`; otherwise strip, normalise comma to dot, and convert with `float`,
with `try/except ValueError` mapping failure to `None`. -/
def parse_distance (cell : Option String) : Option ℚ :=
  match cell with
  | none => none
  | some v => pyFloatQ (commaToDot (pyStripL v.data))

/-- Python `float()` with its `ValueError` made explicit. -/
def pyFloatE (l : List Char) : Except String ℚ :=
  match pyFloatQ l with
  | some v => Except.ok v
  | none => Except.error "ValueError: could not convert string to float"

/-- `normalize_base` at the exception level: none of its operations
(strip, split, replace, startswith, slicing) can raise on a string. -/
def normalize_baseE (s : String) : Except String String :=
  Except.ok (normalize_base s)

/-- `parse_offset_value` at the exception level: the only fallible
operation, `float`, sits inside `try/except ValueError`. -/
def parse_offset_valueE (s : String) : Except String (Option ℚ) :=
  let l := s.data
  if hasChar '/' l then
    let part := (l.dropWhile (fun c => c != '/')).tail
    let part2 := takeBefore '(' part
    match regexSearchNum part2 with
    | none => Except.ok none
    | some tok =>
      match pyFloatE (commaToDot tok) with
      | Except.ok v => Except.ok (some v)
      | Except.error _ => Except.ok none
  else Except.ok none

/-- `parse_distance` at the exception level: the only fallible operation,
`float`, sits inside `try/except ValueError`. -/
def parse_distanceE (cell : Option String) : Except String (Option ℚ) :=
  match cell with
  | none => Except.ok none
  | some v =>
    match pyFloatE (commaToDot (pyStripL v.data)) with
    | Except.ok x => Except.ok (some x)
    | Except.error _ => Except.ok none

/-- One row of the source table belonging to one tower: the `Leg Type`
label and the raw cells of the two numeric columns (`none` models a
missing / NaN cell). -/
structure Row where
  legType : String
  dist : Option String
  sqHalf : Option String
  deriving DecidableEq

/-- Drawing layers carrying geometry (the text-only layer of labels and
titles has no geometric content and is not modelled). -/
inductive Layer where
  | baseVariants
  | offsetVariants
  | centerline
  | angledLines
  deriving DecidableEq

/-- A line segment `add_line(p1, p2)` on a layer. -/
structure Seg where
  p1 : ℚ × ℚ
  p2 : ℚ × ℚ
  layer : Layer
  deriving DecidableEq

/-- Mirror a point across the centerline `x = 0`. -/
def mirrorPt (p : ℚ × ℚ) : ℚ × ℚ := (-p.1, p.2)

/-- Mirror a segment across the centerline: both X coordinates negated,
Y coordinates unchanged. -/
def mirrorSeg (s : Seg) : Seg := ⟨mirrorPt s.p1, mirrorPt s.p2, s.layer⟩

/-- The same segment with its endpoints listed in the other order. -/
def revSeg (s : Seg) : Seg := ⟨s.p2, s.p1, s.layer⟩

/-- The base y of `compute_y_maps` (main.py lines 115-124): `0` for base
`"N"`, else `-1000 * float(base.replace(",", "."))`, silently falling back
to `0` when the conversion raises `ValueError`. -/
def yBaseFun (base : String) : ℚ :=
  if base = "N" then 0
  else
    match pyFloatQ (commaToDot base.data) with
    | some v => -1000 * v
    | none => 0

/-- The loop of `compute_y_maps` (main.py lines 110-137) over the unique
leg types, carrying `y_base_map` and `y_variant_map` as insertion-ordered
association lists (`base_order` is presentation-only and not carried). -/
def yMapsLoop : List String → List (String × ℚ) → List (String × ℚ) →
    List (String × ℚ) × List (String × ℚ)
  | [], ybase, yvar => (ybase, yvar)
  | lt :: rest, ybase, yvar =>
    let base := normalize_base lt
    let (ybase2, yb) :=
      match List.lookup base ybase with
      | some v => (ybase, v)
      | none => (ybase ++ [(base, yBaseFun base)], yBaseFun base)
    let y :=
      match parse_offset_value lt with
      | some off => yb - off * 1000
      | none => yb
    yMapsLoop rest ybase2 (yvar ++ [(lt, y)])

/-- `df["Leg Type"].unique()`: distinct values in first-seen order. -/
def dedupAux (seen : List String) : List String → List String
  | [] => []
  | x :: xs => if seen.contains x then dedupAux seen xs else x :: dedupAux (x :: seen) xs

/-- The distinct `Leg Type` values of a tower, in first-seen order. -/
def uniqueLegTypes (rows : List Row) : List String :=
  dedupAux [] (rows.map (fun r => r.legType))

/-- `compute_y_maps` (main.py lines 90-139): `(y_base_map, y_variant_map)`. -/
def compute_y_maps (rows : List Row) : List (String × ℚ) × List (String × ℚ) :=
  yMapsLoop (uniqueLegTypes rows) [] []

/-- The `y_variant_map` of a tower: full label to Y coordinate. -/
def yVariantMapOf (rows : List Row) : List (String × ℚ) :=
  (compute_y_maps rows).2

/-- Python `min(keys, key=...)`: the first pair attaining the minimal
second component (`none` on the empty list). -/
def argminFirst : List (String × ℚ) → Option (String × ℚ)
  | [] => none
  | p :: rest =>
    match argminFirst rest with
    | none => some p
    | some q => if q.2 < p.2 then some q else some p

/-- Python `max(keys, key=...)`: the first pair attaining the maximal
second component (`none` on the empty list). -/
def argmaxFirst : List (String × ℚ) → Option (String × ℚ)
  | [] => none
  | p :: rest =>
    match argmaxFirst rest with
    | none => some p
    | some q => if p.2 < q.2 then some q else some p

/-- `lowest_leg_type` together with `y_low` (main.py lines 224, 227). -/
def lowestOf (rows : List Row) : Option (String × ℚ) :=
  argminFirst (yVariantMapOf rows)

/-- `highest_leg_type` together with `y_high` (main.py lines 225, 228). -/
def highestOf (rows : List Row) : Option (String × ℚ) :=
  argmaxFirst (yVariantMapOf rows)

/-- `parse_distance(df_leg.iloc[0]["distance on the ground"])` for the first
row of the tower carrying the given leg type (`None` when no row matches,
mirroring the `df.empty` guard). -/
def distOf (rows : List Row) (lt : String) : Option ℚ :=
  match rows.find? (fun r => r.legType == lt) with
  | some r => parse_distance r.dist
  | none => none

/-- `parse_distance(df_leg.iloc[0]["square half-diagonal"])` for the first
row of the tower carrying the given leg type. -/
def sqHalfOf (rows : List Row) (lt : String) : Option ℚ :=
  match rows.find? (fun r => r.legType == lt) with
  | some r => parse_distance r.sqHalf
  | none => none

/-- `x_low` (main.py lines 234-237). -/
def xLowOf (rows : List Row) : Option ℚ :=
  match lowestOf rows with
  | some lo => distOf rows lo.1
  | none => none

/-- `x_high` (main.py lines 240-243). -/
def xHighOf (rows : List Row) : Option ℚ :=
  match highestOf rows with
  | some hi => distOf rows hi.1
  | none => none

/-- The local variables assigned only inside the
`if x_low is not None and x_high is not None and y_high != y_low:` block of
`draw_tower` (main.py lines 248-250): `x_low`, `x_high`, `dx`, `dy`. -/
structure Geo where
  xl : ℚ
  xh : ℚ
  dx : ℚ
  dy : ℚ
  deriving DecidableEq

/-- `some` exactly when the guard of main.py line 246 holds; the Python
locals of the guarded block are undefined (`none`) otherwise. -/
def geoOf (rows : List Row) : Option Geo :=
  match lowestOf rows, highestOf rows with
  | some lo, some hi =>
    match xLowOf rows, xHighOf rows with
    | some a, some b => if hi.2 ≠ lo.2 then some ⟨a, b, b - a, hi.2 - lo.2⟩ else none
    | _, _ => none
  | _, _ => none

/-- The positive-side angled line (main.py lines 252-263): from the lowest
point to the highest point extended 1200 units upward along the slope. -/
def posAngled (g : Geo) (yLow yHigh : ℚ) : Seg :=
  ⟨(g.xl, yLow), (g.xh + g.dx * (1200 / g.dy), yHigh + 1200), Layer.angledLines⟩

/-- The negative-side angled line (main.py lines 266-270): the positive one
with both X coordinates negated. -/
def negAngled (g : Geo) (yLow yHigh : ℚ) : Seg :=
  ⟨(-g.xl, yLow), (-(g.xh + g.dx * (1200 / g.dy)), yHigh + 1200), Layer.angledLines⟩

/-- Layer of a variant: OFFSET_VARIANTS when the label carries an offset,
else BASE_VARIANTS (main.py lines 299-300). -/
def layerFor (lt : String) : Layer :=
  if (parse_offset_value lt).isSome then Layer.offsetVariants else Layer.baseVariants

/-- One goalpost (main.py lines 303-345): two vertical ticks at
`xc - h` and `xc + h` spanning `y - 100 .. y + 100`, joined at the top. -/
def goalpost (xc h y : ℚ) (L : Layer) : List Seg :=
  [⟨(xc - h, y - 100), (xc - h, y + 100), L⟩,
   ⟨(xc + h, y - 100), (xc + h, y + 100), L⟩,
   ⟨(xc - h, y + 100), (xc + h, y + 100), L⟩]

/-- Tick geometry for one variant inside the guarded block (main.py lines
277-345): skip the variant when its y is outside the angled lines' span or
its square half-diagonal is unknown; otherwise emit the negative-side
goalpost, then the positive-side goalpost. -/
def tickFor (rows : List Row) (g : Geo) (yLow yHigh : ℚ) (p : String × ℚ) : List Seg :=
  if min yLow yHigh ≤ p.2 ∧ p.2 ≤ max yLow yHigh then
    let t := (p.2 - yLow) / g.dy
    let xPos := g.xl + g.dx * t
    match sqHalfOf rows p.1 with
    | none => []
    | some hd => goalpost (-xPos) hd p.2 (layerFor p.1) ++ goalpost xPos hd p.2 (layerFor p.1)
  else []

/-- One side of an angled box (main.py lines 373-439): two slanted sides
rising from `yb` to `yt` with horizontal displacement `d`, joined by a
horizontal top, all on BASE_VARIANTS. -/
def boxSide (xc d yb yt : ℚ) : List Seg :=
  [⟨(xc - 353, yb), (xc - 353 + d, yt), Layer.baseVariants⟩,
   ⟨(xc + 353, yb), (xc + 353 + d, yt), Layer.baseVariants⟩,
   ⟨(xc - 353 + d, yt), (xc + 353 + d, yt), Layer.baseVariants⟩]

/-- The six segments of the angled box of one base variant (main.py lines
360-439): negative side first (slope `-dx`), then positive side. -/
def boxFor (g : Geo) (yLow y : ℚ) : List Seg :=
  let tBox := (y - yLow) / g.dy
  let xPosBox := g.xl + g.dx * tBox
  let yBaseBox := y + 100
  let tHeight := 400 / g.dy
  let yTopBox := yBaseBox + 400
  let dxp := g.dx * tHeight
  boxSide (-xPosBox) (-dxp) yBaseBox yTopBox ++ boxSide xPosBox dxp yBaseBox yTopBox

/-- The angled-box loop of `draw_tower` (main.py lines 351-439).  In the
source this loop sits OUTSIDE the guarded block of line 246, yet its body
reads `dy`, `dx` and the box constants that are assigned only inside that
block: when the guard was false and a base variant lies within
`[min(y_low, y_high), max(y_low, y_high)]`, Python raises `NameError` at
`t_box = (y - y_low) / dy`, modelled here by `Except.error`. -/
def boxLoop (geo : Option Geo) (yLow yHigh : ℚ) : List (String × ℚ) → Except String (List Seg)
  | [] => Except.ok []
  | p :: rest =>
    if (parse_offset_value p.1).isSome then boxLoop geo yLow yHigh rest
    else if min yLow yHigh ≤ p.2 ∧ p.2 ≤ max yLow yHigh then
      match geo with
      | none => Except.error "NameError: name dy is not defined"
      | some g =>
        match boxLoop geo yLow yHigh rest with
        | Except.ok bs => Except.ok (boxFor g yLow p.2 ++ bs)
        | Except.error e => Except.error e
    else boxLoop geo yLow yHigh rest

/-- The dashed vertical centerline (main.py lines 445-454). -/
def centerSeg (yMin yMax : ℚ) : Seg :=
  ⟨(0, yMin - 1000), (0, yMax + 1000), Layer.centerline⟩

/-- `X_MIN` (main.py line 10). -/
def X_MIN : ℚ := -15000

/-- `X_MAX` (main.py line 11). -/
def X_MAX : ℚ := 15000

/-- The horizontal line of one variant (main.py lines 194-198). -/
def horizSeg (p : String × ℚ) : Seg :=
  ⟨(X_MIN, p.2), (X_MAX, p.2), layerFor p.1⟩

/-- The line geometry emitted by `draw_tower` (main.py lines 156-468), in
emission order: horizontal variant lines, the two angled lines, the
goalposts, the angled boxes, the centerline.  Text entities carry no
geometry and are not modelled.  An empty `y_variant_map` returns no geometry
(line 178); since the keys of `y_variant_map` are distinct, `y_low` and
`y_high` (lines 227-228, looked up by label) are carried here directly as
the values paired with the argmin / argmax labels.  The `NameError` of the
mis-indented box loop surfaces as `Except.error`, and the geometry emitted
before the exception is discarded (the document is never saved). -/
def draw_tower (rows : List Row) : Except String (List Seg) :=
  match lowestOf rows, highestOf rows with
  | some lo, some hi =>
    let ymap := yVariantMapOf rows
    let horiz := ymap.map horizSeg
    let geo := geoOf rows
    let angled :=
      match geo with
      | some g => [posAngled g lo.2 hi.2, negAngled g lo.2 hi.2]
      | none => []
    let ticks :=
      match geo with
      | some g => ymap.flatMap (tickFor rows g lo.2 hi.2)
      | none => []
    match boxLoop geo lo.2 hi.2 ymap with
    | Except.ok boxes => Except.ok (horiz ++ angled ++ ticks ++ boxes ++ [centerSeg lo.2 hi.2])
    | Except.error e => Except.error e
  | _, _ => Except.ok []

/-! ### Helper lemmas about the character-level operations -/

theorem hasChar_iff_mem (c : Char) (l : List Char) : hasChar c l = true ↔ c ∈ l := by
  induction l with
  | nil => simp [hasChar]
  | cons x t ih =>
    simp only [hasChar, Bool.or_eq_true, decide_eq_true_eq, ih, List.mem_cons]
    constructor
    · rintro (rfl | h) <;> [left; right] <;> simp_all
    · rintro (rfl | h) <;> simp_all

theorem hasChar_false_iff (c : Char) (l : List Char) : hasChar c l = false ↔ c ∉ l := by
  rw [← hasChar_iff_mem]
  cases hasChar c l <;> simp

theorem mem_pyStripL {a : Char} {l : List Char} (h : a ∈ pyStripL l) : a ∈ l := by
  unfold pyStripL at h
  rw [List.mem_reverse] at h
  have h2 := ((List.dropWhile_sublist isPyWs).mem h)
  rw [List.mem_reverse] at h2
  exact (List.dropWhile_sublist isPyWs).mem h2

theorem mem_takeBefore {a sep : Char} {l : List Char} (h : a ∈ takeBefore sep l) :
    a ∈ l ∧ a ≠ sep := by
  refine ⟨(List.takeWhile_sublist _).mem h, ?_⟩
  have := List.mem_takeWhile_imp h
  simpa using this

theorem mem_nbStep2 {a : Char} {s : List Char} (h : a ∈ nbStep2 s) : a ∈ s := by
  unfold nbStep2 at h
  split at h
  · exact (mem_takeBefore (mem_pyStripL h)).1
  · exact h

theorem mem_nbStep3 {a : Char} {s : List Char} (h : a ∈ nbStep3 s) : a ∈ s := by
  unfold nbStep3 at h
  split at h
  · exact (mem_takeBefore (mem_pyStripL h)).1
  · exact h

theorem mem_removeSpaces {a : Char} {s : List Char} (h : a ∈ removeSpaces s) :
    a ∈ s ∧ a ≠ ' ' := by
  unfold removeSpaces at h
  rw [List.mem_filter] at h
  simpa using h

theorem mem_dropLeadPlus {a : Char} {s : List Char} (h : a ∈ dropLeadPlus s) : a ∈ s := by
  unfold dropLeadPlus at h
  split at h
  · exact (List.tail_sublist s).mem h
  · exact h

theorem noSlash_nbStep2 (s : List Char) : '/' ∉ nbStep2 s := by
  intro h
  unfold nbStep2 at h
  split at h
  · exact (mem_takeBefore (mem_pyStripL h)).2 rfl
  · next hs => rw [Bool.not_eq_true, hasChar_false_iff] at hs; exact hs h

theorem noParen_nbStep3 (s : List Char) : '(' ∉ nbStep3 s := by
  intro h
  unfold nbStep3 at h
  split at h
  · exact (mem_takeBefore (mem_pyStripL h)).2 rfl
  · next hs => rw [Bool.not_eq_true, hasChar_false_iff] at hs; exact hs h

theorem noSlash_nbL (l : List Char) : '/' ∉ nbL l := by
  intro h
  exact noSlash_nbStep2 _ (mem_nbStep3 (mem_removeSpaces (mem_dropLeadPlus h)).1)

theorem noParen_nbL (l : List Char) : '(' ∉ nbL l := by
  intro h
  exact noParen_nbStep3 _ (mem_removeSpaces (mem_dropLeadPlus h)).1

theorem noSpace_nbL (l : List Char) : ' ' ∉ nbL l := by
  intro h
  exact (mem_removeSpaces (mem_dropLeadPlus h)).2 rfl

/-- The last character of `l`, when present, is not whitespace. -/
def okLast (l : List Char) : Prop :=
  ∀ c, l.getLast? = some c → isPyWs c = false

theorem head_dropWhile_false {p : Char → Bool} {l : List Char} {a : Char}
    (h : (l.dropWhile p).head? = some a) : p a = false := by
  induction l with
  | nil => simp [List.dropWhile] at h
  | cons x t ih =>
    rw [List.dropWhile_cons] at h
    split at h
    · exact ih h
    · next hx => simp at h; subst h; simpa using hx

theorem okLast_pyStripL (l : List Char) : okLast (pyStripL l) := by
  intro c hc
  unfold pyStripL at hc
  rw [List.getLast?_reverse] at hc
  exact head_dropWhile_false hc

theorem okLast_nbStep2 {s : List Char} (h : okLast s) : okLast (nbStep2 s) := by
  unfold nbStep2
  split
  · exact okLast_pyStripL _
  · exact h

theorem okLast_nbStep3 {s : List Char} (h : okLast s) : okLast (nbStep3 s) := by
  unfold nbStep3
  split
  · exact okLast_pyStripL _
  · exact h

theorem okLast_removeSpaces {s : List Char} (h : okLast s) : okLast (removeSpaces s) := by
  intro c hc
  unfold removeSpaces at hc
  rw [← List.head?_reverse, ← List.filter_reverse] at hc
  rcases hr : s.reverse with _ | ⟨x, t⟩
  · rw [hr] at hc; simp [List.filter] at hc
  · have hx : isPyWs x = false := by
      apply h
      rw [← List.head?_reverse, hr]
      rfl
    have hxs : (x != ' ') = true := by
      simp only [bne_iff_ne, ne_eq]
      intro hxe
      rw [hxe] at hx
      simp [isPyWs] at hx
    rw [hr, List.filter_cons, if_pos hxs] at hc
    simp at hc
    rw [← hc]
    exact hx

theorem okLast_dropLeadPlus {s : List Char} (h : okLast s) : okLast (dropLeadPlus s) := by
  unfold dropLeadPlus
  split
  · next hh =>
    rcases s with _ | ⟨x, t⟩
    · simp at hh
    · simp at hh
      subst hh
      rcases t with _ | ⟨b, u⟩
      · intro c hc; simp at hc
      · intro c hc
        apply h
        rw [List.getLast?_cons_cons]
        exact hc
  · exact h

theorem okLast_nbL (l : List Char) : okLast (nbL l) :=
  okLast_dropLeadPlus (okLast_removeSpaces (okLast_nbStep3 (okLast_nbStep2 (okLast_pyStripL l))))

/-- Fixed-point property: a character list with no `/`, `(` or space, whose
first and last characters are not whitespace, and whose first character is
not `+`, is left unchanged by the body of `normalize_base`. -/
theorem nbL_fixed {r : List Char} (hs : '/' ∉ r) (hp : '(' ∉ r) (hsp : ' ' ∉ r)
    (hHead : ∀ c, r.head? = some c → isPyWs c = false) (hLast : okLast r)
    (hPlus : r.head? ≠ some '+') : nbL r = r := by
  have hstrip : pyStripL r = r := by
    have h1 : r.dropWhile isPyWs = r := by
      rcases r with _ | ⟨x, t⟩
      · rfl
      · rw [List.dropWhile_cons, if_neg]
        simp [hHead x rfl]
    have h2 : r.reverse.dropWhile isPyWs = r.reverse := by
      rcases hr : r.reverse with _ | ⟨x, t⟩
      · rfl
      · rw [List.dropWhile_cons, if_neg]
        have hx : isPyWs x = false := by
          apply hLast
          rw [← List.head?_reverse, hr]
          rfl
        simp [hx]
    unfold pyStripL
    rw [h1, h2, List.reverse_reverse]
  have hns2 : nbStep2 r = r := by
    unfold nbStep2
    rw [if_neg]
    simp [(hasChar_false_iff _ _).mpr hs]
  have hns3 : nbStep3 r = r := by
    unfold nbStep3
    rw [if_neg]
    simp [(hasChar_false_iff _ _).mpr hp]
  have hrs : removeSpaces r = r := by
    unfold removeSpaces
    rw [List.filter_eq_self]
    intro a ha
    simp only [bne_iff_ne, ne_eq]
    intro hae
    rw [hae] at ha
    exact hsp ha
  have hdp : dropLeadPlus r = r := by
    unfold dropLeadPlus
    rw [if_neg hPlus]
  unfold nbL
  rw [hstrip, hns2, hns3, hrs, hdp]

/-! ### Helper lemmas about `compute_y_maps` -/

/-- The Y a label receives: its base Y minus 1000 times its offset. -/
def yValFun (lt : String) : ℚ :=
  match parse_offset_value lt with
  | some off => yBaseFun (normalize_base lt) - off * 1000
  | none => yBaseFun (normalize_base lt)

theorem lookupAppend {β : Type} (k : String) (l l2 : List (String × β)) :
    List.lookup k (l ++ l2) =
      match List.lookup k l with
      | some v => some v
      | none => List.lookup k l2 := by
  induction l with
  | nil => simp
  | cons p t ih =>
    rcases p with ⟨a, b⟩
    rw [List.cons_append, List.lookup_cons, List.lookup_cons]
    cases h : (k == a) <;> simp [ih]

theorem lookupMem {β : Type} {k : String} {v : β} {l : List (String × β)}
    (h : List.lookup k l = some v) : (k, v) ∈ l := by
  induction l with
  | nil => simp at h
  | cons p t ih =>
    rcases p with ⟨a, b⟩
    rw [List.lookup_cons] at h
    cases hk : (k == a)
    · rw [hk] at h
      exact List.mem_cons_of_mem _ (ih h)
    · rw [hk] at h
      simp only [Option.some.injEq] at h
      subst h
      have : k = a := by simpa using hk
      subst this
      exact List.mem_cons_self _ _

theorem yMapsLoop_stable (lts : List String) (ybase yvar : List (String × ℚ))
    {lt : String} {v : ℚ} (h : List.lookup lt yvar = some v) :
    List.lookup lt (yMapsLoop lts ybase yvar).2 = some v := by
  induction lts generalizing ybase yvar with
  | nil => simpa [yMapsLoop]
  | cons hd rest ih =>
    rw [yMapsLoop]
    apply ih
    rw [lookupAppend, h]

theorem yMapsLoop_lookup (lts : List String) (ybase yvar : List (String × ℚ))
    (hb : ∀ b v, (b, v) ∈ ybase → v = yBaseFun b) (hn : lts.Nodup)
    (hfresh : ∀ lt ∈ lts, List.lookup lt yvar = none) :
    ∀ lt ∈ lts, List.lookup lt (yMapsLoop lts ybase yvar).2 = some (yValFun lt) := by
  induction lts generalizing ybase yvar with
  | nil => intro lt h; simp at h
  | cons hd rest ih =>
    intro lt hlt
    rw [List.nodup_cons] at hn
    have hyb : ∀ ybase2 yb,
        (match List.lookup (normalize_base hd) ybase with
          | some v => (ybase, v)
          | none => (ybase ++ [(normalize_base hd, yBaseFun (normalize_base hd))],
              yBaseFun (normalize_base hd))) = (ybase2, yb) →
        yb = yBaseFun (normalize_base hd) ∧
          (∀ b v, (b, v) ∈ ybase2 → v = yBaseFun b) := by
      intro ybase2 yb hm
      cases hlk : List.lookup (normalize_base hd) ybase with
      | some v =>
        rw [hlk] at hm
        simp only [Prod.mk.injEq] at hm
        obtain ⟨rfl, rfl⟩ := hm
        exact ⟨hb _ _ (lookupMem hlk), hb⟩
      | none =>
        rw [hlk] at hm
        simp only [Prod.mk.injEq] at hm
        obtain ⟨rfl, rfl⟩ := hm
        refine ⟨rfl, ?_⟩
        intro b v hbv
        rcases List.mem_append.mp hbv with h | h
        · exact hb _ _ h
        · simp at h
          rw [h.1, h.2]
    rw [yMapsLoop]
    cases hm : (match List.lookup (normalize_base hd) ybase with
      | some v => (ybase, v)
      | none => (ybase ++ [(normalize_base hd, yBaseFun (normalize_base hd))],
          yBaseFun (normalize_base hd))) with
    | mk ybase2 yb =>
    obtain ⟨hyb1, hyb2⟩ := hyb _ _ hm
    simp only [hm]
    have hnewy : (match parse_offset_value hd with
        | some off => yb - off * 1000
        | none => yb) = yValFun hd := by
      subst hyb1
      unfold yValFun
      rfl
    rcases List.mem_cons.mp hlt with rfl | hmem
    · apply yMapsLoop_stable
      rw [lookupAppend, hfresh lt (List.mem_cons_self _ _)]
      simp [hnewy]
    · apply ih _ _ hyb2 hn.2 _ _ hmem
      intro l2 hl2
      rw [lookupAppend, hfresh l2 (List.mem_cons_of_mem _ hl2)]
      have : (l2 == hd) = false := by
        have hne : l2 ≠ hd := fun he => hn.1 (he ▸ hl2)
        simpa using hne
      simp [List.lookup, this]

theorem dedupAux_spec (l : List String) :
    ∀ seen, (dedupAux seen l).Nodup ∧ ∀ x ∈ dedupAux seen l, x ∉ seen := by
  induction l with
  | nil => intro seen; simp [dedupAux]
  | cons x xs ih =>
    intro seen
    rw [dedupAux]
    split
    · exact ⟨(ih seen).1, (ih seen).2⟩
    · next hx =>
      have hx2 : x ∉ seen := by
        intro hc
        exact hx (List.elem_iff.mpr hc)
      constructor
      · rw [List.nodup_cons]
        refine ⟨fun hc => ?_, (ih (x :: seen)).1⟩
        exact ((ih (x :: seen)).2 x hc) (List.mem_cons_self _ _)
      · intro y hy
        rcases List.mem_cons.mp hy with rfl | hy2
        · exact hx2
        · intro hc
          exact ((ih (x :: seen)).2 y hy2) (List.mem_cons_of_mem _ hc)

theorem uniqueLegTypes_nodup (rows : List Row) : (uniqueLegTypes rows).Nodup :=
  (dedupAux_spec _ []).1

/-- Every label of `unique_leg_types` receives in `y_variant_map` exactly
its base Y minus 1000 times its offset. -/
theorem yVariantMap_lookup (rows : List Row) :
    ∀ lt ∈ uniqueLegTypes rows,
      List.lookup lt (yVariantMapOf rows) = some (yValFun lt) := by
  intro lt hlt
  exact yMapsLoop_lookup _ [] [] (by simp) (uniqueLegTypes_nodup rows) (by simp) lt hlt

/-! ### Helper lemmas about extremes and the box loop -/

theorem argminFirst_none {l : List (String × ℚ)} (h : argminFirst l = none) : l = [] := by
  cases l with
  | nil => rfl
  | cons a t =>
    rw [argminFirst] at h
    cases hm : argminFirst t with
    | none => rw [hm] at h; simp at h
    | some q => rw [hm] at h; dsimp only at h; split at h <;> simp at h

theorem argmaxFirst_none {l : List (String × ℚ)} (h : argmaxFirst l = none) : l = [] := by
  cases l with
  | nil => rfl
  | cons a t =>
    rw [argmaxFirst] at h
    cases hm : argmaxFirst t with
    | none => rw [hm] at h; simp at h
    | some q => rw [hm] at h; dsimp only at h; split at h <;> simp at h

theorem argminFirst_spec {l : List (String × ℚ)} {p : String × ℚ}
    (h : argminFirst l = some p) : p ∈ l ∧ ∀ q ∈ l, p.2 ≤ q.2 := by
  induction l generalizing p with
  | nil => simp [argminFirst] at h
  | cons a t ih =>
    rw [argminFirst] at h
    cases hm : argminFirst t with
    | none =>
      rw [hm] at h
      simp only [Option.some.injEq] at h
      subst h
      rw [argminFirst_none hm]
      simp
    | some q =>
      rw [hm] at h
      dsimp only at h
      obtain ⟨hqm, hqle⟩ := ih hm
      by_cases hlt : q.2 < a.2
      · rw [if_pos hlt] at h
        simp only [Option.some.injEq] at h
        subst h
        refine ⟨List.mem_cons_of_mem _ hqm, ?_⟩
        intro r hr
        rcases List.mem_cons.mp hr with rfl | hr2
        · exact le_of_lt hlt
        · exact hqle r hr2
      · rw [if_neg hlt] at h
        simp only [Option.some.injEq] at h
        subst h
        refine ⟨List.mem_cons_self _ _, ?_⟩
        intro r hr
        rcases List.mem_cons.mp hr with rfl | hr2
        · exact le_refl _
        · exact le_trans (not_lt.mp hlt) (hqle r hr2)

theorem argmaxFirst_spec {l : List (String × ℚ)} {p : String × ℚ}
    (h : argmaxFirst l = some p) : p ∈ l ∧ ∀ q ∈ l, q.2 ≤ p.2 := by
  induction l generalizing p with
  | nil => simp [argmaxFirst] at h
  | cons a t ih =>
    rw [argmaxFirst] at h
    cases hm : argmaxFirst t with
    | none =>
      rw [hm] at h
      simp only [Option.some.injEq] at h
      subst h
      rw [argmaxFirst_none hm]
      simp
    | some q =>
      rw [hm] at h
      dsimp only at h
      obtain ⟨hqm, hqge⟩ := ih hm
      by_cases hlt : a.2 < q.2
      · rw [if_pos hlt] at h
        simp only [Option.some.injEq] at h
        subst h
        refine ⟨List.mem_cons_of_mem _ hqm, ?_⟩
        intro r hr
        rcases List.mem_cons.mp hr with rfl | hr2
        · exact le_of_lt hlt
        · exact hqge r hr2
      · rw [if_neg hlt] at h
        simp only [Option.some.injEq] at h
        subst h
        refine ⟨List.mem_cons_self _ _, ?_⟩
        intro r hr
        rcases List.mem_cons.mp hr with rfl | hr2
        · exact le_refl _
        · exact le_trans (hqge r hr2) (not_lt.mp hlt)

theorem boxLoop_some_ok (g : Geo) (yLow yHigh : ℚ) (l : List (String × ℚ)) :
    ∃ bs, boxLoop (some g) yLow yHigh l = Except.ok bs := by
  induction l with
  | nil => exact ⟨[], rfl⟩
  | cons p rest ih =>
    obtain ⟨bs, hbs⟩ := ih
    rw [boxLoop]
    split
    · exact ⟨bs, hbs⟩
    · split
      · rw [hbs]
        exact ⟨boxFor g yLow p.2 ++ bs, rfl⟩
      · exact ⟨bs, hbs⟩

theorem boxLoop_mem (g : Geo) (yLow yHigh : ℚ) (l : List (String × ℚ)) (bs : List Seg)
    (h : boxLoop (some g) yLow yHigh l = Except.ok bs) :
    ∀ p ∈ l, parse_offset_value p.1 = none →
      (min yLow yHigh ≤ p.2 ∧ p.2 ≤ max yLow yHigh) →
      ∀ s ∈ boxFor g yLow p.2, s ∈ bs := by
  induction l generalizing bs with
  | nil => intro p hp; simp at hp
  | cons q rest ih =>
    intro p hp hoff hspan s hs
    rw [boxLoop] at h
    rcases List.mem_cons.mp hp with rfl | hmem
    · rw [if_neg (by simp [hoff]), if_pos hspan] at h
      cases hrec : boxLoop (some g) yLow yHigh rest with
      | ok bs2 =>
        rw [hrec] at h
        simp only [Except.ok.injEq] at h
        subst h
        exact List.mem_append_left _ hs
      | error e => rw [hrec] at h; simp at h
    · split at h
      · exact ih bs h p hmem hoff hspan s hs
      · split at h
        · cases hrec : boxLoop (some g) yLow yHigh rest with
          | ok bs2 =>
            rw [hrec] at h
            simp only [Except.ok.injEq] at h
            subst h
            exact List.mem_append_right _ (ih bs2 hrec p hmem hoff hspan s hs)
          | error e => rw [hrec] at h; simp at h
        · exact ih bs h p hmem hoff hspan s hs

/-- Shape of `draw_tower` output when the angled-geometry guard holds. -/
theorem drawTower_active {rows : List Row} {lo hi : String × ℚ} {g : Geo} {bs : List Seg}
    (hlo : lowestOf rows = some lo) (hhi : highestOf rows = some hi)
    (hgeo : geoOf rows = some g)
    (hbs : boxLoop (some g) lo.2 hi.2 (yVariantMapOf rows) = Except.ok bs) :
    draw_tower rows = Except.ok
      ((yVariantMapOf rows).map horizSeg ++
        [posAngled g lo.2 hi.2, negAngled g lo.2 hi.2] ++
        (yVariantMapOf rows).flatMap (tickFor rows g lo.2 hi.2) ++ bs ++
        [centerSeg lo.2 hi.2]) := by
  unfold draw_tower
  rw [hlo, hhi]
  simp only [hgeo, hbs]

/-! ### Claim theorems -/

/-- C1: the claim says a degenerate tower (equal extreme Ys, or an unknown
extreme ground distance) completes without error and with no angled geometry.
The code disagrees: here a tower with the single label `N` (so
`y_high == y_low = 0`) and a known ground distance makes `draw_tower` raise
`NameError`, because the angled-box loop sits outside the guarded block yet
reads its local `dy`. -/
theorem c1_degenerate_raises :
    draw_tower [⟨"N", some "100", none⟩] =
      Except.error "NameError: name dy is not defined" := by
  rfl

/-- C2: the claim mandates that a label whose normalized base is neither
`"N"` nor numeric fail the tower layout with a descriptive error.  The code
disagrees: for the label `"abc"` (base not `"N"`, not parseable) the layout
completes and silently assigns the base Y derived from the value `0`. -/
theorem c2_malformed_base_silent_zero :
    normalize_base "abc" ≠ "N" ∧
    pyFloatQ (commaToDot (normalize_base "abc").data) = none ∧
    yVariantMapOf [⟨"abc", none, none⟩] = [("abc", 0)] := by
  exact ⟨by decide, by rfl, by rfl⟩

/-- C7: goalpost markers are emitted for a label exactly when its Y lies
within the inclusive vertical span `[min(Ylow, Yhigh), max(Ylow, Yhigh)]`
of the angled lines and its square half-diagonal is known; in every other
case the marker builder returns zero primitives (it is a total function, so
this cannot raise). -/
theorem c7_ticks_iff :
    ∀ (rows : List Row) (g : Geo) (yLow yHigh : ℚ) (lt : String) (y : ℚ),
      tickFor rows g yLow yHigh (lt, y) ≠ [] ↔
        ((min yLow yHigh ≤ y ∧ y ≤ max yLow yHigh) ∧ (sqHalfOf rows lt).isSome) := by
  intro rows g yLow yHigh lt y
  unfold tickFor
  by_cases hspan : min yLow yHigh ≤ y ∧ y ≤ max yLow yHigh
  · rw [if_pos hspan]
    cases hsq : sqHalfOf rows lt with
    | none => simp [hspan]
    | some hd => simp [hspan, goalpost]
  · rw [if_neg hspan]
    constructor
    · intro hne
      exact absurd rfl hne
    · rintro ⟨hab, _⟩
      exact absurd hab hspan

/-- C8: counterexample to idempotence as claimed.  `normalize_base "++1"`
is `"+1"`, which contains neither `/` nor `(`, yet applying
`normalize_base` to it strips the leading `+` and yields `"1"`. -/
theorem c8_counterexample :
    hasChar '/' (normalize_base "++1").data = false ∧
    hasChar '(' (normalize_base "++1").data = false ∧
    normalize_base (normalize_base "++1") ≠ normalize_base "++1" := by
  exact ⟨by rfl, by rfl, by decide⟩

/-- `true` when a character list does not begin with `+` or whitespace. -/
def headNotWsPlus (l : List Char) : Bool :=
  match l.head? with
  | none => true
  | some c => !(c == '+') && !isPyWs c

/-- C8 (amended): `normalize_base` output never contains `/`, `(` or a
space, and never ends in whitespace; applying `normalize_base` to the
output returns it unchanged whenever the output does not BEGIN with `+` or
a whitespace character (a leading `+` or whitespace can survive only via
repeated `+` signs or internal non-space whitespace, as in `"++1"`). -/
theorem c8_amended_idempotent (l : String)
    (h : headNotWsPlus (normalize_base l).data = true) :
    normalize_base (normalize_base l) = normalize_base l := by
  have hd : (normalize_base l).data = nbL l.data := rfl
  rw [hd] at h
  have hcases : ∀ c, (nbL l.data).head? = some c → c ≠ '+' ∧ isPyWs c = false := by
    intro c hc
    unfold headNotWsPlus at h
    rw [hc] at h
    simp only [Bool.and_eq_true, Bool.not_eq_true'] at h
    refine ⟨?_, h.2⟩
    intro he
    rw [he] at h
    simp at h
  have key : nbL (nbL l.data) = nbL l.data := by
    apply nbL_fixed (noSlash_nbL _) (noParen_nbL _) (noSpace_nbL _)
    · intro c hc
      exact (hcases c hc).2
    · exact okLast_nbL _
    · intro hc
      exact (hcases '+' hc).1 rfl
  show (⟨nbL (normalize_base l).data⟩ : String) = normalize_base l
  rw [hd, key]
  rfl

/-- C8 witness: a realistic label whose normalized base `"-3"` starts with
a non-plus, non-whitespace character, so normalization is idempotent on it. -/
theorem c8_witness :
    normalize_base (normalize_base "- 3 / +0,70") = normalize_base "- 3 / +0,70" :=
  c8_amended_idempotent "- 3 / +0,70" (by rfl)

/-- C9: the three parsing functions are total.  At the exception level
(`Except`-valued embeddings in which the fallible `float` conversion is
explicit) they always return `ok` of the stated shape — a string for
`normalize_base`, a rational or `none` for the two numeric parsers — and
never propagate an exception. -/
theorem c9_parsers_total :
    ∀ (s : String) (c : Option String),
      normalize_baseE s = Except.ok (normalize_base s) ∧
      parse_offset_valueE s = Except.ok (parse_offset_value s) ∧
      parse_distanceE c = Except.ok (parse_distance c) := by
  intro s c
  refine ⟨rfl, ?_, ?_⟩
  · unfold parse_offset_valueE parse_offset_value
    cases h : hasChar '/' s.data with
    | false => simp [h]
    | true =>
      cases hr : regexSearchNum (takeBefore '(' ((s.data.dropWhile (fun c => c != '/')).tail)) with
      | none => simp [h, hr]
      | some tok =>
        cases hq : pyFloatQ (commaToDot tok) <;> simp [h, hr, hq, pyFloatE]
  · cases c with
    | none => rfl
    | some v =>
      unfold parse_distanceE parse_distance
      cases hq : pyFloatQ (commaToDot (pyStripL v.data)) <;> simp [pyFloatE, hq]

/-- C5: mirror symmetry of every positive-side primitive.  The negative
angled line is the exact mirror of the positive one; every segment of a
positive-side goalpost has a mirrored counterpart (up to endpoint order) in
the negative-side goalpost built around the negated center; and every
segment of a positive-side slanted box has a mirrored counterpart in the
negative-side box built from the negated center and negated slope shift. -/
theorem c5_mirror_symmetry :
    (∀ (g : Geo) (yl yh : ℚ), negAngled g yl yh = mirrorSeg (posAngled g yl yh)) ∧
    (∀ (xc h y : ℚ) (L : Layer) (s : Seg), s ∈ goalpost xc h y L →
      ∃ t ∈ goalpost (-xc) h y L, t = mirrorSeg s ∨ t = revSeg (mirrorSeg s)) ∧
    (∀ (xc d yb yt : ℚ) (s : Seg), s ∈ boxSide xc d yb yt →
      ∃ t ∈ boxSide (-xc) (-d) yb yt, t = mirrorSeg s ∨ t = revSeg (mirrorSeg s)) := by
  refine ⟨fun g yl yh => rfl, ?_, ?_⟩
  · intro xc h y L s hs
    simp only [goalpost, List.mem_cons, List.not_mem_nil, or_false] at hs
    rcases hs with rfl | rfl | rfl
    · refine ⟨mirrorSeg _, ?_, Or.inl rfl⟩
      have e : (-(xc - h) : ℚ) = -xc + h := by ring
      simp only [mirrorSeg, mirrorPt, goalpost, e]
      simp
    · refine ⟨mirrorSeg _, ?_, Or.inl rfl⟩
      have e : (-(xc + h) : ℚ) = -xc - h := by ring
      simp only [mirrorSeg, mirrorPt, goalpost, e]
      simp
    · refine ⟨revSeg (mirrorSeg _), ?_, Or.inr rfl⟩
      have e1 : (-(xc + h) : ℚ) = -xc - h := by ring
      have e2 : (-(xc - h) : ℚ) = -xc + h := by ring
      simp only [revSeg, mirrorSeg, mirrorPt, goalpost, e1, e2]
      simp
  · intro xc d yb yt s hs
    simp only [boxSide, List.mem_cons, List.not_mem_nil, or_false] at hs
    rcases hs with rfl | rfl | rfl
    · refine ⟨mirrorSeg _, ?_, Or.inl rfl⟩
      have e1 : (-(xc - 353) : ℚ) = -xc + 353 := by ring
      have e2 : (-(xc - 353 + d) : ℚ) = -xc + 353 + -d := by ring
      simp only [mirrorSeg, mirrorPt, boxSide, e1, e2]
      simp
    · refine ⟨mirrorSeg _, ?_, Or.inl rfl⟩
      have e1 : (-(xc + 353) : ℚ) = -xc - 353 := by ring
      have e2 : (-(xc + 353 + d) : ℚ) = -xc - 353 + -d := by ring
      simp only [mirrorSeg, mirrorPt, boxSide, e1, e2]
      simp
    · refine ⟨revSeg (mirrorSeg _), ?_, Or.inr rfl⟩
      have e1 : (-(xc + 353 + d) : ℚ) = -xc - 353 + -d := by ring
      have e2 : (-(xc - 353 + d) : ℚ) = -xc + 353 + -d := by ring
      simp only [revSeg, mirrorSeg, mirrorPt, boxSide, e1, e2]
      simp

/-- C5 witness: the left tick of the positive goalpost centered at 5 with
half-diagonal 1 at level 0 has its mirrored counterpart in the negative
goalpost centered at -5. -/
theorem c5_witness :
    ∃ t ∈ goalpost (-(5 : ℚ)) 1 0 Layer.baseVariants,
      t = mirrorSeg ⟨((5 : ℚ) - 1, (0 : ℚ) - 100), ((5 : ℚ) - 1, (0 : ℚ) + 100), Layer.baseVariants⟩ ∨
      t = revSeg (mirrorSeg ⟨((5 : ℚ) - 1, (0 : ℚ) - 100), ((5 : ℚ) - 1, (0 : ℚ) + 100), Layer.baseVariants⟩) :=
  c5_mirror_symmetry.2.1 5 1 0 Layer.baseVariants
    ⟨((5 : ℚ) - 1, (0 : ℚ) - 100), ((5 : ℚ) - 1, (0 : ℚ) + 100), Layer.baseVariants⟩
    (List.mem_cons_self _ _)

/-- C4: every label receives Y = (0 if its base is N, else -1000 times the
numeric value of the base) minus 1000 times its parsed offset (a missing
offset counting as 0); in particular the labels N, -3, 6 with no offsets
receive 0, 3000 and -6000, and the label -1 / +0,70 receives 300. -/
theorem c4_y_assignment :
    (∀ (rows : List Row) (lt : String) (v : ℚ), lt ∈ uniqueLegTypes rows →
      ((normalize_base lt = "N" ∧ v = 0) ∨
        (normalize_base lt ≠ "N" ∧ pyFloatQ (commaToDot (normalize_base lt).data) = some v)) →
      List.lookup lt (yVariantMapOf rows) =
        some ((if normalize_base lt = "N" then 0 else -1000 * v) -
          1000 * ((parse_offset_value lt).getD 0))) ∧
    yVariantMapOf [⟨"N", none, none⟩, ⟨"-3", none, none⟩, ⟨"6", none, none⟩] =
      [("N", 0), ("-3", 3000), ("6", -6000)] ∧
    List.lookup "-1 / +0,70" (yVariantMapOf [⟨"-1 / +0,70", none, none⟩]) = some 300 := by
  refine ⟨?_, by with_unfolding_all rfl, by with_unfolding_all rfl⟩
  intro rows lt v hmem hbase
  rw [yVariantMap_lookup rows lt hmem]
  congr 1
  unfold yValFun yBaseFun
  rcases hbase with ⟨hN, rfl⟩ | ⟨hN, hv⟩
  · rw [if_pos hN, if_pos hN]
    cases ho : parse_offset_value lt
    · simp
    · simp [Option.getD]
      ring
  · rw [if_neg hN, if_neg hN, hv]
    cases ho : parse_offset_value lt
    · simp
    · simp [Option.getD]
      ring

/-- C4 witness: the general formula applied to the label -1 / +0,70 alone
in a tower, with numeric base value -1. -/
theorem c4_witness :
    List.lookup "-1 / +0,70" (yVariantMapOf [⟨"-1 / +0,70", none, none⟩]) =
      some ((if normalize_base "-1 / +0,70" = "N" then 0 else -1000 * (-1 : ℚ)) -
        1000 * ((parse_offset_value "-1 / +0,70").getD 0)) :=
  c4_y_assignment.1 [⟨"-1 / +0,70", none, none⟩] "-1 / +0,70" (-1)
    (List.mem_cons_self _ _) (Or.inr ⟨by decide, by with_unfolding_all rfl⟩)

/-- C6: when both extreme distances are known and the extreme Ys differ,
the positive-side angled line is emitted from `(x_low, Ylow)` to the
extended top point with Y = Yhigh + 1200 and
X = x_high + (x_high - x_low) * (1200 / (Yhigh - Ylow)). -/
theorem c6_extended_top :
    ∀ (rows : List Row) (lo hi : String × ℚ) (a b : ℚ),
      lowestOf rows = some lo → highestOf rows = some hi →
      xLowOf rows = some a → xHighOf rows = some b → hi.2 ≠ lo.2 →
      ∃ segs, draw_tower rows = Except.ok segs ∧
        Seg.mk (a, lo.2) (b + (b - a) * (1200 / (hi.2 - lo.2)), hi.2 + 1200)
          Layer.angledLines ∈ segs := by
  intro rows lo hi a b hlo hhi hxl hxh hne
  have hgeo : geoOf rows = some ⟨a, b, b - a, hi.2 - lo.2⟩ := by
    unfold geoOf
    rw [hlo, hhi, hxl, hxh]
    dsimp only
    rw [if_pos hne]
  obtain ⟨bs, hbs⟩ := boxLoop_some_ok ⟨a, b, b - a, hi.2 - lo.2⟩ lo.2 hi.2 (yVariantMapOf rows)
  refine ⟨_, drawTower_active hlo hhi hgeo hbs, ?_⟩
  exact List.mem_append_left _ (List.mem_append_left _ (List.mem_append_left _
    (List.mem_append_right _ (List.mem_cons_self _ _))))

/-- C6 witness: the example tower with groundDistance(low) = 8998,
Y(low) = -6700, groundDistance(high) = 7616, Y(high) = 4000; the extended
top point evaluates to (798328/107, 5200). -/
theorem c6_witness :
    ∃ segs, draw_tower [⟨"6,7", some "8998", none⟩, ⟨"-4", some "7616", none⟩] =
        Except.ok segs ∧
      Seg.mk ((8998 : ℚ), -6700) ((798328 / 107 : ℚ), 5200) Layer.angledLines ∈ segs := by
  obtain ⟨segs, h1, h2⟩ :=
    c6_extended_top [⟨"6,7", some "8998", none⟩, ⟨"-4", some "7616", none⟩]
      ("6,7", -6700) ("-4", 4000) 8998 7616 (by with_unfolding_all rfl)
      (by with_unfolding_all rfl) (by with_unfolding_all rfl) (by with_unfolding_all rfl)
      (by norm_num)
  refine ⟨segs, h1, ?_⟩
  have e : Seg.mk ((8998 : ℚ), -6700) ((798328 / 107 : ℚ), 5200) Layer.angledLines =
      Seg.mk ((8998 : ℚ), -6700)
        ((7616 : ℚ) + (7616 - 8998) * (1200 / (4000 - -6700)), (4000 : ℚ) + 1200)
        Layer.angledLines := by
    norm_num
  rw [e]
  exact h2

/-- C3: counterexample to the claim that extremes are selected among
known-distance labels only.  In this tower the label with minimum Y,
3 / +0,1, has an unknown ground distance; it is nevertheless selected as
the low extreme, and the tower gets NO angled line at all, although two
labels with known distances and distinct Ys exist (from which the claim
would build one). -/
theorem c3_counterexample :
    lowestOf [⟨"1 / +0,5", some "200", none⟩, ⟨"N / +0,2", some "100", none⟩,
        ⟨"3 / +0,1", none, none⟩] = some ("3 / +0,1", -3100) ∧
    distOf [⟨"1 / +0,5", some "200", none⟩, ⟨"N / +0,2", some "100", none⟩,
        ⟨"3 / +0,1", none, none⟩] "3 / +0,1" = none ∧
    draw_tower [⟨"1 / +0,5", some "200", none⟩, ⟨"N / +0,2", some "100", none⟩,
        ⟨"3 / +0,1", none, none⟩] =
      Except.ok
        [⟨(-15000, -1500), (15000, -1500), Layer.offsetVariants⟩,
         ⟨(-15000, -200), (15000, -200), Layer.offsetVariants⟩,
         ⟨(-15000, -3100), (15000, -3100), Layer.offsetVariants⟩,
         ⟨(0, -4100), (0, 800), Layer.centerline⟩] ∧
    (∀ s ∈ [(⟨(-15000, -1500), (15000, -1500), Layer.offsetVariants⟩ : Seg),
         ⟨(-15000, -200), (15000, -200), Layer.offsetVariants⟩,
         ⟨(-15000, -3100), (15000, -3100), Layer.offsetVariants⟩,
         ⟨(0, -4100), (0, 800), Layer.centerline⟩], s.layer ≠ Layer.angledLines) := by
  refine ⟨by with_unfolding_all rfl, by with_unfolding_all rfl, by with_unfolding_all rfl, ?_⟩
  intro s hs
  simp only [List.mem_cons, List.not_mem_nil, or_false] at hs
  rcases hs with rfl | rfl | rfl | rfl <;> simp

/-- C3 (amended): the extremes are selected by minimum / maximum Y over ALL
labels, ignoring ground distances.  When the angled line is emitted, its
endpoint labels are these global extremes, both then necessarily carry
known ground distances (so they are also the extremes among known-distance
labels); but when a distance-less label is the global extreme, no angled
line is produced instead of falling back to the known-distance extremes. -/
theorem c3_amended :
    ∀ (rows : List Row) (lo hi : String × ℚ) (g : Geo),
      lowestOf rows = some lo → highestOf rows = some hi → geoOf rows = some g →
      lo ∈ yVariantMapOf rows ∧ hi ∈ yVariantMapOf rows ∧
      (∀ p ∈ yVariantMapOf rows, lo.2 ≤ p.2 ∧ p.2 ≤ hi.2) ∧
      distOf rows lo.1 = some g.xl ∧ distOf rows hi.1 = some g.xh ∧
      posAngled g lo.2 hi.2 =
        Seg.mk (g.xl, lo.2) (g.xh + g.dx * (1200 / g.dy), hi.2 + 1200) Layer.angledLines := by
  intro rows lo hi g hlo hhi hgeo
  have hmin := argminFirst_spec hlo
  have hmax := argmaxFirst_spec hhi
  have hinv : xLowOf rows = some g.xl ∧ xHighOf rows = some g.xh := by
    unfold geoOf at hgeo
    rw [hlo, hhi] at hgeo
    cases hxl : xLowOf rows with
    | none => rw [hxl] at hgeo; simp at hgeo
    | some a =>
      cases hxh : xHighOf rows with
      | none => rw [hxl, hxh] at hgeo; simp at hgeo
      | some b =>
        rw [hxl, hxh] at hgeo
        dsimp only at hgeo
        split at hgeo
        · injection hgeo with h2
          subst h2
          exact ⟨rfl, rfl⟩
        · simp at hgeo
  have hdl : distOf rows lo.1 = some g.xl := by
    have h := hinv.1
    unfold xLowOf at h
    rw [hlo] at h
    exact h
  have hdh : distOf rows hi.1 = some g.xh := by
    have h := hinv.2
    unfold xHighOf at h
    rw [hhi] at h
    exact h
  refine ⟨hmin.1, hmax.1, ?_, hdl, hdh, rfl⟩
  intro p hp
  exact ⟨hmin.2 p hp, hmax.2 p hp⟩

/-- C3 witness: the amended statement instantiated at the two-label example
tower, whose global extremes both carry known distances. -/
theorem c3_witness :
    ("6,7", (-6700 : ℚ)) ∈
        yVariantMapOf [⟨"6,7", some "8998", none⟩, ⟨"-4", some "7616", none⟩] ∧
    ("-4", (4000 : ℚ)) ∈
        yVariantMapOf [⟨"6,7", some "8998", none⟩, ⟨"-4", some "7616", none⟩] ∧
    (∀ p ∈ yVariantMapOf [⟨"6,7", some "8998", none⟩, ⟨"-4", some "7616", none⟩],
      (("6,7", (-6700 : ℚ)) : String × ℚ).2 ≤ p.2 ∧
        p.2 ≤ (("-4", (4000 : ℚ)) : String × ℚ).2) ∧
    distOf [⟨"6,7", some "8998", none⟩, ⟨"-4", some "7616", none⟩]
        (("6,7", (-6700 : ℚ)) : String × ℚ).1 =
      some (Geo.mk 8998 7616 (-1382) 10700).xl ∧
    distOf [⟨"6,7", some "8998", none⟩, ⟨"-4", some "7616", none⟩]
        (("-4", (4000 : ℚ)) : String × ℚ).1 =
      some (Geo.mk 8998 7616 (-1382) 10700).xh ∧
    posAngled (Geo.mk 8998 7616 (-1382) 10700) (("6,7", (-6700 : ℚ)) : String × ℚ).2
        (("-4", (4000 : ℚ)) : String × ℚ).2 =
      Seg.mk ((Geo.mk 8998 7616 (-1382) 10700).xl, (("6,7", (-6700 : ℚ)) : String × ℚ).2)
        ((Geo.mk 8998 7616 (-1382) 10700).xh +
          (Geo.mk 8998 7616 (-1382) 10700).dx * (1200 / (Geo.mk 8998 7616 (-1382) 10700).dy),
          (("-4", (4000 : ℚ)) : String × ℚ).2 + 1200)
        Layer.angledLines :=
  c3_amended [⟨"6,7", some "8998", none⟩, ⟨"-4", some "7616", none⟩]
    ("6,7", -6700) ("-4", 4000) (Geo.mk 8998 7616 (-1382) 10700)
    (by with_unfolding_all rfl) (by with_unfolding_all rfl) (by with_unfolding_all rfl)

/-- C10: a missing square half-diagonal suppresses only the goalpost
markers of a label, never its slanted box: for a null-offset label inside
the angled span with unknown square half-diagonal, the tick builder emits
nothing while all six box segments are emitted into the tower output. -/
theorem c10_box_without_sqhalf :
    ∀ (rows : List Row) (lo hi : String × ℚ) (g : Geo) (lt : String) (y : ℚ),
      lowestOf rows = some lo → highestOf rows = some hi → geoOf rows = some g →
      (lt, y) ∈ yVariantMapOf rows → parse_offset_value lt = none →
      sqHalfOf rows lt = none →
      tickFor rows g lo.2 hi.2 (lt, y) = [] ∧
      (boxFor g lo.2 y).length = 6 ∧
      ∃ segs, draw_tower rows = Except.ok segs ∧ ∀ s ∈ boxFor g lo.2 y, s ∈ segs := by
  intro rows lo hi g lt y hlo hhi hgeo hmem hoff hsq
  obtain ⟨bs, hbs⟩ := boxLoop_some_ok g lo.2 hi.2 (yVariantMapOf rows)
  have hspan : min lo.2 hi.2 ≤ y ∧ y ≤ max lo.2 hi.2 := by
    have h1 := (argminFirst_spec hlo).2 (lt, y) hmem
    have h2 := (argmaxFirst_spec hhi).2 (lt, y) hmem
    exact ⟨le_trans (min_le_left _ _) h1, le_trans h2 (le_max_right _ _)⟩
  refine ⟨?_, by rfl, ?_⟩
  · simp [tickFor, hsq]
  · refine ⟨_, drawTower_active hlo hhi hgeo hbs, ?_⟩
    intro s hs
    have hmem2 := boxLoop_mem g lo.2 hi.2 _ bs hbs (lt, y) hmem hoff hspan s hs
    exact List.mem_append_left _ (List.mem_append_right _ hmem2)

/-- C10 witness: the two-label tower N (distance 100) and 2 (distance 300),
both without square half-diagonals; the base label N at Y = 0 gets no
goalposts but all six box segments. -/
theorem c10_witness :
    tickFor [⟨"N", some "100", none⟩, ⟨"2", some "300", none⟩]
        (Geo.mk 300 100 (-200) 2000) (("2", (-2000 : ℚ)) : String × ℚ).2
        (("N", (0 : ℚ)) : String × ℚ).2 ("N", 0) = [] ∧
    (boxFor (Geo.mk 300 100 (-200) 2000) (("2", (-2000 : ℚ)) : String × ℚ).2 0).length = 6 ∧
    ∃ segs, draw_tower [⟨"N", some "100", none⟩, ⟨"2", some "300", none⟩] = Except.ok segs ∧
      ∀ s ∈ boxFor (Geo.mk 300 100 (-200) 2000) (("2", (-2000 : ℚ)) : String × ℚ).2 0,
        s ∈ segs :=
  c10_box_without_sqhalf [⟨"N", some "100", none⟩, ⟨"2", some "300", none⟩]
    ("2", -2000) ("N", 0) (Geo.mk 300 100 (-200) 2000) "N" 0
    (by with_unfolding_all rfl) (by with_unfolding_all rfl) (by with_unfolding_all rfl)
    (List.mem_cons_self _ _) (by with_unfolding_all rfl) (by with_unfolding_all rfl)

end Perigramata
